import Mathlib

/-!
Verification of the coCLI resumable parallel upload engine
(`pkg/cmd_utils/upload_utils`): a shallow embedding of the data model and
the pure logic of the upload manager, the multipart producer, the
sliding-window scheduler admission rule, the URL batcher, the result sink,
and the option/glob layer, with theorems settling the specified
properties.  Effectful Go code is embedded as explicit state passing:
the contents of a file's checkpoint database is an `Option`
`MultipartCheckpointInfo`, and the outcomes of the RPCs
(`GetFile`, `GenerateFileUploadUrls`, `ListObjectParts`,
`NewMultipartUpload`, `CompleteMultipartUpload`) are `Except` inputs.
-/

namespace Cocli

/-! ## Constants (upload_manager.go, opt.go) -/

/-- `maxSinglePutObjectSize = 1024 * 1024 * 1024 * 500`: the 500 GiB cap. -/
def maxSinglePutObjectSize : Nat := 1024 * 1024 * 1024 * 500

/-- `defaultWindowSize = 1024 * 1024 * 1024`: the 1 GiB sliding window. -/
def defaultWindowSize : Nat := 1024 * 1024 * 1024

/-- `processBatchSize = 20`: URL generation batch size. -/
def processBatchSize : Nat := 20

/-- `defaultPartSize = 1024 * 1024 * 128` (opt.go): default multipart chunk. -/
def defaultPartSize : Nat := 1024 * 1024 * 128

/-! ## Data model -/

/-- The closed status set `UploadStatusEnum` of upload_manager.go. -/
inductive UploadStatusEnum where
  | Unprocessed
  | CalculatingSha256
  | PreviouslyUploaded
  | WaitingForUpload
  | UploadInProgress
  | UploadCompleted
  | MultipartCompletionInProgress
  | UploadFailed
deriving DecidableEq, Repr

/-- One entry of the checkpoint's completed-parts list
(minio `CompletePart`: part number, ETag; checksums folded into `etag`
since the engine only copies them through). -/
structure CompletePart where
  partNumber : Nat
  etag : String
deriving DecidableEq, Repr

/-- `MultipartCheckpointInfo`: upload id, accumulated uploaded size and
the completed parts list, as persisted in the per-file checkpoint store. -/
structure MultipartCheckpointInfo where
  uploadId : String
  uploadedSize : Nat
  parts : List CompletePart
deriving DecidableEq, Repr

/-- The zero value `MultipartCheckpointInfo{}` of Go. -/
def emptyCheckpoint : MultipartCheckpointInfo :=
  ⟨"", 0, []⟩

/-- The scheduling-relevant fields of `UploadInfo`: owning path, upload id
(empty for a single PUT), 1-based part id (0 for a single PUT), total part
count, and the section read window.  Sizes are `Nat`: the engine only ever
stores non-negative int64 values in these fields. -/
structure UploadInfo where
  path : String
  uploadId : String
  partId : Nat
  totalPartsCount : Nat
  readOffset : Nat
  readSize : Nat
deriving DecidableEq, Repr

/-! ## Digest / existence probe (findAllUploadUrlsGeneric, lines 902-915) -/

/-- Outcome of the `GetFile` existence probe.  The Go client returns
`(res, nil)` or `(nil, err)`; the error value is opaque to the engine, so
only a Boolean tag distinguishing `NotFound` from other errors is kept,
which the engine code never inspects. -/
inductive ProbeResult where
  | found (sha256 : String) (size : Nat)
  | err (isNotFound : Bool)
deriving DecidableEq, Repr

/-- Per-file effect of the probe branch: resulting status, whether the
wait-group slot was released (`uploadWg.Done()`), and whether the file was
queued for URL batching (appended to `files`). -/
structure ProbeOutcome where
  status : UploadStatusEnum
  wgReleased : Bool
  queued : Bool
deriving DecidableEq, Repr

/-- Embeds the existence-check branch of `findAllUploadUrlsGeneric`:
`if err == nil && getFileRes.Sha256 == checksum && getFileRes.Size == size`
the file becomes `PreviouslyUploaded`, the wait group is decremented and
the file is skipped; on every other outcome (mismatch, `NotFound`, or any
other probe error) the code falls through to `WaitingForUpload` and queues
the file. -/
def probeFileStatus (checksum : String) (size : Nat) (r : ProbeResult) : ProbeOutcome :=
  match r with
  | .found sha sz =>
    if sha = checksum ∧ sz = size then
      ⟨.PreviouslyUploaded, true, false⟩
    else
      ⟨.WaitingForUpload, false, true⟩
  | .err _ => ⟨.WaitingForUpload, false, true⟩

/-! ## URL batcher (findAllUploadUrlsGeneric, lines 924-957) -/

/-- State of the batching loop: the pending batch buffer `files`, the
record of `GenerateFileUploadUrls` calls issued so far (each call's file
list), the files handed to `addErr` (marked `UploadFailed`), and the
accumulated resource-name/URL pairs. -/
structure BatchState where
  files : List String
  calls : List (List String)
  failed : List String
  urls : List (String × String)
deriving DecidableEq, Repr

/-- One iteration of the batching portion of the per-file loop: append the
file to the buffer; when the buffer reaches `processBatchSize`, issue the
RPC.  On RPC error every buffered file is `addErr`-ed and the loop
`continue`s — faithfully, without clearing the buffer (the Go code only
executes `files = nil` on the success path). -/
def batchStep (gen : List String → Except String (List (String × String)))
    (s : BatchState) (f : String) : BatchState :=
  let files := s.files ++ [f]
  if files.length = processBatchSize then
    match gen files with
    | .error _ =>
      { files := files, calls := s.calls ++ [files], failed := s.failed ++ files, urls := s.urls }
    | .ok res =>
      { files := [], calls := s.calls ++ [files], failed := s.failed, urls := s.urls ++ res }
  else
    { s with files := files }

/-- The whole batching loop of `findAllUploadUrlsGeneric`: fold
`batchStep` over the queued files, then flush the remaining buffer with a
final `GenerateFileUploadUrls` call (`if len(files) > 0`). -/
def runUrlBatcher (gen : List String → Except String (List (String × String)))
    (fs : List String) : BatchState :=
  let s := fs.foldl (batchStep gen) ⟨[], [], [], []⟩
  if 0 < s.files.length then
    match gen s.files with
    | .error _ =>
      { s with calls := s.calls ++ [s.files], failed := s.failed ++ s.files }
    | .ok res =>
      { s with calls := s.calls ++ [s.files], urls := s.urls ++ res }
  else s

/-- A `GenerateFileUploadUrls` oracle that fails exactly on batches of
`processBatchSize` files and otherwise returns an empty URL map: the
failing input for the batch-error claim. -/
def genFail20 : List String → Except String (List (String × String)) :=
  fun l => if l.length = processBatchSize then .error "rpc failed" else .ok []

/-- Twenty-one distinct file names. -/
def names21 : List String :=
  (List.range 21).map (fun i => "f" ++ toString i)

/-! ## Scheduler and sliding window (canUpload, scheduleUploads) -/

/-- `lo.Min` on a list of `Nat`: the minimum, or the zero value 0 on the
empty list. -/
def loMin (l : List Nat) : Nat :=
  match l with
  | [] => 0
  | x :: xs => xs.foldl min x

/-- The effective window size of `canUpload`: `defaultWindowSize`, raised
to the configured part size when the latter is larger. -/
def windowSizeFor (partSize : Nat) : Nat :=
  if defaultWindowSize < partSize then partSize else defaultWindowSize

/-- The admission window in parts: `windowSize / partSize` with Go's
integer (floor) division. -/
def partThreshold (partSize : Nat) : Nat :=
  windowSizeFor partSize / partSize

/-- Embeds `canUpload` (lines 727-750): the least part id among in-flight
descriptors of the same path (0 when there are none, per `lo.Min`); when
it is 0 the candidate is admitted outright, otherwise it must satisfy
`PartId ≤ least + windowSize/partSize`. -/
def canUpload (partSize : Nat) (cand : UploadInfo)
    (inProgress : List UploadInfo) : Bool :=
  let least := loMin ((inProgress.filter (fun i => i.path == cand.path)).map
    (fun i => i.partId))
  if least = 0 then
    true
  else
    decide (cand.partId ≤ least + partThreshold partSize)

/-- Scheduler state: the descriptors not yet admitted, in the order the
producer emits them (the one-slot lookahead buffer holds the head of this
list), and the in-flight list `uploadInfoInProgress`. -/
structure SchedState where
  pending : List UploadInfo
  inflight : List UploadInfo
deriving DecidableEq, Repr

/-- One transition of `scheduleUploads` (lines 563-621):
`dispatch` sends the next descriptor to a worker when `canUpload` allows it;
`discard` drops the next descriptor of an already-failed file
(fail-fast); `complete` drains a worker result, removing the matching
(path, part id) from the in-flight list by the source's filter. -/
inductive SchedStep (partSize : Nat) : SchedState → SchedState → Prop where
  | dispatch (d : UploadInfo) (rest inflight : List UploadInfo)
      (hc : canUpload partSize d inflight = true) :
      SchedStep partSize ⟨d :: rest, inflight⟩ ⟨rest, inflight ++ [d]⟩
  | discard (d : UploadInfo) (rest inflight : List UploadInfo) :
      SchedStep partSize ⟨d :: rest, inflight⟩ ⟨rest, inflight⟩
  | complete (r : UploadInfo) (pending inflight : List UploadInfo) :
      SchedStep partSize ⟨pending, inflight⟩
        ⟨pending, inflight.filter (fun i => i.path != r.path || i.partId != r.partId)⟩

/-- The sliding-window invariant: any two in-flight descriptors of the
same file are within `partThreshold` parts of each other; in particular
every in-flight part id is at most the least in-flight part id of its
file plus the window. -/
def WindowInv (partSize : Nat) (inflight : List UploadInfo) : Prop :=
  ∀ d ∈ inflight, ∀ e ∈ inflight, d.path = e.path →
    d.partId ≤ e.partId + partThreshold partSize

/-- Well-formedness of a scheduler state, established by the producer:
(1) every pending descriptor's part id exceeds every in-flight part id of
the same file (parts of a file are emitted and admitted in ascending
order); (2) pending descriptors of the same file have strictly ascending
part ids; (3) a part id 0 (single PUT) never shares a file with a
non-zero part id (a file is either one single descriptor or multipart
descriptors numbered from 1); (4) the window invariant. -/
def SchedWF (partSize : Nat) (s : SchedState) : Prop :=
  (∀ d ∈ s.pending, ∀ e ∈ s.inflight, d.path = e.path → e.partId < d.partId)
  ∧ s.pending.Pairwise (fun a b => a.path = b.path → a.partId < b.partId)
  ∧ (∀ d ∈ s.pending ++ s.inflight, ∀ e ∈ s.pending ++ s.inflight,
      d.path = e.path → d.partId = 0 → e.partId = 0)
  ∧ WindowInv partSize s.inflight

/-! ## Option / glob layer (opt.go) -/

/-- `hasGlobPattern`: the path contains one of `*`, `?`, `[`
(`strings.ContainsAny(path, "*?[")`). -/
def hasGlobPattern (path : String) : Bool :=
  path.toList.any (fun c => c = '*' || c = '?' || c = '[')

/-- Index of the first wildcard character, `strings.IndexAny(pattern, "*?[")`. -/
def indexAnyWildcard (pattern : String) : Option Nat :=
  pattern.toList.findIdx? (fun c => c = '*' || c = '?' || c = '[')

/-- `strings.TrimRight(s, string(filepath.Separator))` on a Unix
separator: drop all trailing `/` characters. -/
def trimRightSep (s : String) : String :=
  String.mk (s.toList.reverse.dropWhile (fun c => c = '/')).reverse

/-- Go's `filepath.Dir`, restricted to already-clean slash-separated
paths (no `.`/`..` segments, no doubled separators), which is the shape
of every argument the option layer passes to it: everything before the
last `/`, `"."` when there is no `/`, `"/"` when the last `/` is leading. -/
def filepathDir (s : String) : String :=
  let cs := s.toList
  match (cs.reverse.findIdx? (fun c => c = '/')) with
  | none => "."
  | some k =>
    let i := cs.length - 1 - k
    if i = 0 then "/" else String.mk (cs.take i)

/-- `globBaseDir` (opt.go lines 151-162): take the pattern prefix before
the first wildcard, trim trailing separators, then `filepath.Dir`. -/
def globBaseDir (pattern : String) : String :=
  match indexAnyWildcard pattern with
  | none => filepathDir pattern
  | some wildcardPos =>
    let beforeWildcard := String.mk (pattern.toList.take wildcardPos)
    filepathDir (trimRightSep beforeWildcard)

/-- The relative base directory recorded by `FileOpts.Valid` for a
non-empty path: `globBaseDir` for a glob pattern, else the parent
directory `filepath.Dir(path)`. -/
def validRelDir (path : String) : String :=
  if hasGlobPattern path then globBaseDir path else filepathDir path

/-! ## Multipart planning (produceMultipartUploadInfos, lines 450-561) -/

/-- Modelled from the spec: minio's `OptimalPartInfo(size, partSize)` with a
positive configured part size, described by the spec as "the first `N-1`
parts are of the configured part size, the last part takes the remainder"
(the minio library is an external dependency, not part of this
repository's sources).  Returns (total parts count, part size, last part
size) with `N = ⌈size / partSize⌉`. -/
def optimalPartInfo (size partSize : Nat) : Nat × Nat × Nat :=
  let totalPartsCount := (size + partSize - 1) / partSize
  (totalPartsCount, partSize, size - (totalPartsCount - 1) * partSize)

/-- Result of multipart planning for one file: the emitted descriptors,
the pre-set uploaded byte counter (`um.fileInfos[path].Uploaded`), the
upload id the descriptors carry, and whether the stale checkpoint was
reset (`db.Reset()`). -/
structure MultipartPlan where
  infos : List UploadInfo
  uploadedPreset : Nat
  uploadId : String
  didReset : Bool
deriving DecidableEq, Repr

/-- Embeds `produceMultipartUploadInfos`.  Inputs standing for effects:
`cp0` is the checkpoint read from the store (`db.Get`; `none` when absent
or unreadable, in which case the code continues with the zero value),
`listParts` the outcome of `ListObjectParts` for the checkpoint's upload
id (part numbers only), `newUpload` the outcome of `NewMultipartUpload`.
Modelled from the spec where it leans on the checkpoint store
(`UploadDB.Get`/`Reset`), whose implementation is not among the sources;
the spec describes it as a per-file key/value record reset to empty.
Steps, as in the source: 500 GiB cap check; liveness check of a non-empty
checkpoint upload id (error or empty part list resets the checkpoint); a
fresh upload id when none survives; descriptors for exactly the part
numbers missing from the checkpoint's completed list, with the last part
taking the remainder size. -/
def produceMultipartUploadInfos (path : String) (partSize size : Nat)
    (cp0 : Option MultipartCheckpointInfo)
    (listParts : Except String (List Nat))
    (newUpload : Except String String) : Except String MultipartPlan :=
  if maxSinglePutObjectSize < size then
    .error "exceeds the maximum allowed object size"
  else
    let checkpoint := cp0.getD emptyCheckpoint
    let reset :=
      if checkpoint.uploadId ≠ "" then
        match listParts with
        | .error _ => ({ checkpoint with uploadId := "" }, true)
        | .ok ps => if ps.length = 0 then ({ checkpoint with uploadId := "" }, true)
                    else (checkpoint, false)
      else (checkpoint, false)
    let afterNew : Except String MultipartCheckpointInfo :=
      if reset.1.uploadId = "" then
        match newUpload with
        | .error e => .error ("New multipart upload failed: " ++ e)
        | .ok uid => .ok { emptyCheckpoint with uploadId := uid }
      else .ok reset.1
    match afterNew with
    | .error e => .error e
    | .ok checkpoint =>
      let partNumbers := checkpoint.parts.map (fun p => p.partNumber)
      let info := optimalPartInfo size partSize
      let totalPartsCount := info.1
      let ps := info.2.1
      let lastPartSize := info.2.2
      let infos := (List.range' 1 totalPartsCount).filterMap fun partId =>
        if partNumbers.contains partId then none
        else some { path := path, uploadId := checkpoint.uploadId, partId := partId,
                    totalPartsCount := totalPartsCount,
                    readOffset := (partId - 1) * ps,
                    readSize := if partId = totalPartsCount then lastPartSize else ps }
      .ok { infos := infos, uploadedPreset := checkpoint.uploadedSize,
            uploadId := checkpoint.uploadId, didReset := reset.2 }

/-- Per-file outcome of the producer loop (`produceUploadInfos`,
lines 404-448). -/
inductive ProducerOutcome where
  | skipped
  | failed (e : String)
  | single (info : UploadInfo)
  | multi (plan : MultipartPlan)
deriving DecidableEq, Repr

/-- Embeds the per-file body of `produceUploadInfos`: a file whose path is
absent from the URL map is skipped by `continue` (no error, no status
change, no descriptor); a file of size at most the configured part size
gets one single-PUT descriptor (empty upload id); larger files go through
multipart planning, whose error is recorded via `addErr`. -/
def produceUploadInfoForFile (path : String) (partSize size : Nat)
    (url : Option String) (cp0 : Option MultipartCheckpointInfo)
    (listParts : Except String (List Nat))
    (newUpload : Except String String) : ProducerOutcome :=
  match url with
  | none => .skipped
  | some _ =>
    if size ≤ partSize then
      .single { path := path, uploadId := "", partId := 0, totalPartsCount := 0,
                readOffset := 0, readSize := 0 }
    else
      match produceMultipartUploadInfos path partSize size cp0 listParts newUpload with
      | .error e => .failed e
      | .ok plan => .multi plan

/-! ## Result sink (handleUploadResult, lines 623-722) -/

/-- The fields of a worker result consumed by `handleUploadResult`. -/
structure UploadResultInfo where
  path : String
  uploadId : String
  readSize : Nat
  totalPartsCount : Nat
  resultPart : CompletePart
  err : Option String
deriving DecidableEq, Repr

/-- Effect of one `handleUploadResult` call: the checkpoint store content
afterwards (`none` = deleted or never written), the file status, the
returned error, and whether `uploadWg.Done()` ran. -/
structure SinkOutcome where
  checkpointDb : Option MultipartCheckpointInfo
  status : UploadStatusEnum
  retErr : Option String
  wgDone : Bool
deriving DecidableEq, Repr

/-- Embeds `handleUploadResult`.  `db` is the file's checkpoint store
content before the call, `status0` the file's current status,
`completeRpc` the outcome of `CompleteMultipartUpload` (consulted only
when the parts list reaches the total count).  An error result is
returned as-is; a single-PUT success completes the file; a multipart
success appends the part to the checkpoint transactionally, and when the
list reaches `TotalPartsCount` a delete of the checkpoint store is
*deferred* — in Go it therefore runs when the function returns, on the
`CompleteMultipartUpload` error path just as on the success path. -/
def handleUploadResult (db : Option MultipartCheckpointInfo)
    (status0 : UploadStatusEnum) (result : UploadResultInfo)
    (completeRpc : Except String Unit) : SinkOutcome :=
  match result.err with
  | some e => { checkpointDb := db, status := status0, retErr := some e, wgDone := false }
  | none =>
    if result.uploadId = "" then
      { checkpointDb := db, status := .UploadCompleted, retErr := none, wgDone := true }
    else
      let cp0 := db.getD { uploadId := result.uploadId, uploadedSize := 0, parts := [] }
      let cp : MultipartCheckpointInfo :=
        { uploadId := result.uploadId,
          uploadedSize := cp0.uploadedSize + result.readSize,
          parts := cp0.parts ++ [result.resultPart] }
      if cp.parts.length = result.totalPartsCount then
        match completeRpc with
        | .error e =>
          { checkpointDb := none, status := .MultipartCompletionInProgress,
            retErr := some ("complete multipart upload failed: " ++ e), wgDone := false }
        | .ok _ =>
          { checkpointDb := none, status := .UploadCompleted, retErr := none, wgDone := true }
      else
        { checkpointDb := some cp, status := status0, retErr := none, wgDone := false }

/-- Final per-file state after the scheduler drains a result. -/
structure FileEndState where
  checkpointDb : Option MultipartCheckpointInfo
  status : UploadStatusEnum
  recordedErr : Option String
deriving DecidableEq, Repr

/-- `handleUploadResult` composed with the scheduler's error surfacing
(scheduleUploads lines 614-619): a returned error is recorded via
`addErr`, which stores it in the error map and sets `UploadFailed`. -/
def sinkResult (db : Option MultipartCheckpointInfo)
    (status0 : UploadStatusEnum) (result : UploadResultInfo)
    (completeRpc : Except String Unit) : FileEndState :=
  let o := handleUploadResult db status0 result completeRpc
  match o.retErr with
  | some e => { checkpointDb := o.checkpointDb, status := .UploadFailed, recordedErr := some e }
  | none => { checkpointDb := o.checkpointDb, status := o.status, recordedErr := none }

/-! ## Per-file end-to-end status (Run, produceUploadInfos, addErr) -/

/-- Terminal statuses the specification allows at the end of a run. -/
def terminalStatuses : List UploadStatusEnum :=
  [.PreviouslyUploaded, .UploadCompleted, .UploadFailed]

/-- The status of one discovered file when the engine stops, as the
composition of the embedded stages: a digest error is `addErr`-ed
(`UploadFailed`); otherwise the probe decides between `PreviouslyUploaded`
and queueing; a queued file whose pre-signed URL is absent from the map is
skipped by the producer's `continue` and keeps status `WaitingForUpload`
(its wait-group slot is never released); a queued file with a URL ends
`UploadCompleted` or `UploadFailed` according to the upload outcome
(worker, sink and completion errors all funnel through `addErr`). -/
def fileFinalStatus (digest : Except String (String × Nat)) (probe : ProbeResult)
    (urlPresent : Bool) (uploadOk : Bool) : UploadStatusEnum :=
  match digest with
  | .error _ => .UploadFailed
  | .ok d =>
    let o := probeFileStatus d.1 d.2 probe
    if o.queued then
      if urlPresent then
        if uploadOk then .UploadCompleted else .UploadFailed
      else .WaitingForUpload
    else o.status

/-! ## Progress display (calculateUploadProgress, lines 961-967) -/

/-- `calculateUploadProgress`: 100 when the declared size is 0, otherwise
`uploaded * 100 / size`.  Go's float64 division is modelled as rational
division; the guarded `size == 0` branch performs no division at all. -/
def calculateUploadProgress (size uploaded : Int) : ℚ :=
  if size = 0 then 100 else (uploaded : ℚ) * 100 / (size : ℚ)

/-! ## Theorems -/

/-- C10: a file entry whose declared size is 0 is displayed at exactly
100 percent by `calculateUploadProgress`, whatever its uploaded byte
counter; the division by the size sits in the other branch of the guard
and is never reached. -/
theorem calculateUploadProgress_zero_size (uploaded : Int) :
    calculateUploadProgress 0 uploaded = 100 := by
  simp [calculateUploadProgress]

/-- C9: evaluation of the recorded relative base directory at the glob
pattern `a/*`.  The function's own doc comment promises `"a/*" -> "a"`,
and the claim demands the directory prefix before the first wildcard,
`a`; the code trims the trailing separator from `a/` and then still
applies `filepath.Dir`, yielding `.`.  The doc comment's other example
`a/b/c*.txt -> a/b` (prefix not ending in a separator) does hold. -/
theorem globBaseDir_failing_input :
    validRelDir "a/*" = "." ∧ globBaseDir "a/*" = "."
      ∧ globBaseDir "a/b/c*.txt" = "a/b" ∧ ("." : String) ≠ "a" := by
  refine ⟨?_, ?_, ?_, by decide⟩ <;> rfl

/-- C5 counterexample: a probe error that is not `NotFound` (a transport
error, `isNotFound = false`) leaves the file `WaitingForUpload` and
queued, not `UploadFailed` as the claim states. -/
theorem probeFileStatus_transport_error_counterexample :
    probeFileStatus "abc" 1024 (.err false) = ⟨.WaitingForUpload, false, true⟩
      ∧ (probeFileStatus "abc" 1024 (.err false)).status ≠ .UploadFailed := by
  decide

/-- C5 amended: a probe success matching both sha256 and size yields
`PreviouslyUploaded`, releases the wait-group slot and skips URL
batching; every other probe outcome — mismatch, `NotFound`, or any other
probe error alike — yields `WaitingForUpload` and queues the file; no
probe outcome ever yields `UploadFailed`. -/
theorem probeFileStatus_spec (checksum : String) (size : Nat) (r : ProbeResult) :
    probeFileStatus checksum size (.found checksum size)
        = ⟨.PreviouslyUploaded, true, false⟩
    ∧ (∀ sha sz, sha ≠ checksum ∨ sz ≠ size →
        probeFileStatus checksum size (.found sha sz)
          = ⟨.WaitingForUpload, false, true⟩)
    ∧ (∀ flag, probeFileStatus checksum size (.err flag)
        = ⟨.WaitingForUpload, false, true⟩)
    ∧ (probeFileStatus checksum size r).status ≠ .UploadFailed := by
  refine ⟨by simp [probeFileStatus], ?_, fun flag => rfl, ?_⟩
  · intro sha sz h
    have : ¬(sha = checksum ∧ sz = size) := by tauto
    simp [probeFileStatus, this]
  · cases r with
    | found sha sz =>
      by_cases h : sha = checksum ∧ sz = size <;> simp [probeFileStatus, h]
    | err flag => simp [probeFileStatus]

/-- Witness for `probeFileStatus_spec` at a concrete mismatching probe. -/
theorem probeFileStatus_spec_witness :
    (("x" : String) ≠ "abc" ∨ (1 : Nat) ≠ 2)
      ∧ probeFileStatus "abc" 2 (.found "x" 1) = ⟨.WaitingForUpload, false, true⟩ :=
  ⟨by decide, (probeFileStatus_spec "abc" 2 (.err true)).2.1 "x" 1 (by decide)⟩

/-- C1 counterexample: all parts of a two-part file have landed and
`CompleteMultipartUpload` fails.  The per-file error is recorded (first
conjunct) but the checkpoint store is deleted by the deferred delete
(second conjunct), not retained as the claim states. -/
theorem handleUploadResult_deletes_checkpoint_on_complete_failure :
    (sinkResult (some ⟨"uid", 5, [⟨1, "e1"⟩]⟩) .UploadInProgress
        ⟨"f.bin", "uid", 7, 2, ⟨2, "e2"⟩, none⟩ (.error "boom")).recordedErr
      = some "complete multipart upload failed: boom"
    ∧ (sinkResult (some ⟨"uid", 5, [⟨1, "e1"⟩]⟩) .UploadInProgress
        ⟨"f.bin", "uid", 7, 2, ⟨2, "e2"⟩, none⟩ (.error "boom")).checkpointDb
      = none := by
  decide

/-- C1 amended: when the completed-parts list reaches the total part
count, a failing `CompleteMultipartUpload` records a per-file error
(`addErr` sets `UploadFailed` and stores the wrapped error), but the
checkpoint store is deleted whether the RPC fails or succeeds — the
delete is deferred before the RPC and runs on both return paths; on
success the file is `UploadCompleted`. -/
theorem sinkResult_completion_outcome (db : Option MultipartCheckpointInfo)
    (status0 : UploadStatusEnum) (result : UploadResultInfo) (e : String)
    (h1 : result.err = none) (h2 : result.uploadId ≠ "")
    (h3 : (db.getD ⟨result.uploadId, 0, []⟩).parts.length + 1 = result.totalPartsCount) :
    (sinkResult db status0 result (.error e)).status = .UploadFailed
    ∧ (sinkResult db status0 result (.error e)).recordedErr
        = some ("complete multipart upload failed: " ++ e)
    ∧ (sinkResult db status0 result (.error e)).checkpointDb = none
    ∧ (sinkResult db status0 result (.ok ())).checkpointDb = none
    ∧ (sinkResult db status0 result (.ok ())).status = .UploadCompleted := by
  have hlen : ((db.getD ⟨result.uploadId, 0, []⟩).parts ++ [result.resultPart]).length
      = result.totalPartsCount := by
    simpa using h3
  refine ⟨?_, ?_, ?_, ?_, ?_⟩ <;>
    simp [sinkResult, handleUploadResult, h1, h2, hlen]

/-- Witness for `sinkResult_completion_outcome` at the concrete two-part
upload of the counterexample. -/
theorem sinkResult_completion_outcome_witness :
    ((⟨"f.bin", "uid", 7, 2, ⟨2, "e2"⟩, none⟩ : UploadResultInfo).err = none)
    ∧ ((⟨"f.bin", "uid", 7, 2, ⟨2, "e2"⟩, none⟩ : UploadResultInfo).uploadId ≠ "")
    ∧ (((some ⟨"uid", 5, [⟨1, "e1"⟩]⟩ : Option MultipartCheckpointInfo).getD
          ⟨"uid", 0, []⟩).parts.length + 1 = 2)
    ∧ (sinkResult (some ⟨"uid", 5, [⟨1, "e1"⟩]⟩) .UploadInProgress
        ⟨"f.bin", "uid", 7, 2, ⟨2, "e2"⟩, none⟩ (.ok ())).status = .UploadCompleted :=
  ⟨by decide, by decide, by decide,
    (sinkResult_completion_outcome (some ⟨"uid", 5, [⟨1, "e1"⟩]⟩) .UploadInProgress
      ⟨"f.bin", "uid", 7, 2, ⟨2, "e2"⟩, none⟩ "boom" (by decide) (by decide)
      (by decide)).2.2.2.2⟩

/-- C6 counterexample: a queued file (here after a `NotFound` probe)
whose pre-signed URL is absent from the generated URL map is skipped by
the producer's `continue`: it ends the run still `WaitingForUpload`,
which is none of the three terminal statuses. -/
theorem fileFinalStatus_url_missing_counterexample :
    fileFinalStatus (.ok ("abc", 4)) (.err true) false true = .WaitingForUpload
    ∧ .WaitingForUpload ∉ terminalStatuses := by
  decide

/-- C6 amended: every discovered file whose pre-signed URL is present in
the URL map (and every file that fails digest or is deduplicated) ends in
one of `PreviouslyUploaded`, `UploadCompleted`, `UploadFailed`; but a
queued file whose URL is absent from the map is silently skipped by the
producer and is left `WaitingForUpload`, its wait-group slot never
released. -/
theorem fileFinalStatus_terminal (digest : Except String (String × Nat))
    (probe : ProbeResult) (uploadOk : Bool) :
    fileFinalStatus digest probe true uploadOk ∈ terminalStatuses
    ∧ (∀ d, digest = .ok d → (probeFileStatus d.1 d.2 probe).queued = true →
        fileFinalStatus digest probe false uploadOk = .WaitingForUpload) := by
  constructor
  · cases digest with
    | error e => simp [fileFinalStatus, terminalStatuses]
    | ok d =>
      cases probe with
      | found sha sz =>
        by_cases h : sha = d.1 ∧ sz = d.2 <;>
          cases uploadOk <;>
            simp [fileFinalStatus, probeFileStatus, terminalStatuses, h]
      | err flag =>
        cases uploadOk <;>
          simp [fileFinalStatus, probeFileStatus, terminalStatuses]
  · rintro d rfl hq
    simp [fileFinalStatus, hq]

/-- Witness for `fileFinalStatus_terminal` at a concrete queued file. -/
theorem fileFinalStatus_terminal_witness :
    ((.ok ("abc", 4) : Except String (String × Nat)) = .ok ("abc", 4))
    ∧ (probeFileStatus "abc" 4 (.err true)).queued = true
    ∧ fileFinalStatus (.ok ("abc", 4)) (.err true) false true = .WaitingForUpload :=
  ⟨rfl, by decide,
    (fileFinalStatus_terminal (.ok ("abc", 4)) (.err true) true).2 ("abc", 4) rfl
      (by decide)⟩

/-- A `filterMap` whose function drops exactly the elements failing a
test and maps the rest is the map over the filter. -/
theorem filterMap_if_eq_map_filter {α β : Type} (l : List α) (c : α → Bool) (g : α → β) :
    (l.filterMap fun x => if c x then none else some (g x))
      = (l.filter fun x => !(c x)).map g := by
  induction l with
  | nil => rfl
  | cons x xs ih =>
    cases hc : c x <;> simp [List.filterMap_cons, List.filter_cons, hc, ih]

/-- A `filterMap` that wraps every element in `some` is a `map`. -/
theorem filterMap_some_eq_map {α β : Type} (l : List α) (g : α → β) :
    (l.filterMap fun x => some (g x)) = l.map g := by
  induction l with
  | nil => rfl
  | cons x xs ih => simp [List.filterMap_cons, ih]

/-- Ceiling-division bounds for the optimal-part count: with
`q = (size + partSize - 1) / partSize` the parts cover the file,
`(q - 1) * partSize < size ≤ q * partSize`. -/
theorem ceil_parts_bounds (partSize size : Nat) (hp : 0 < partSize) (hs : 0 < size) :
    ((size + partSize - 1) / partSize - 1) * partSize < size
      ∧ size ≤ ((size + partSize - 1) / partSize) * partSize := by
  have hdm : partSize * ((size + partSize - 1) / partSize) + (size + partSize - 1) % partSize
      = size + partSize - 1 := Nat.div_add_mod _ _
  have hr : (size + partSize - 1) % partSize < partSize := Nat.mod_lt _ hp
  have hq : 0 < (size + partSize - 1) / partSize := by
    apply Nat.div_pos _ hp
    omega
  have h1 : ((size + partSize - 1) / partSize - 1) * partSize
      = partSize * ((size + partSize - 1) / partSize) - partSize := by
    rw [Nat.sub_one_mul, Nat.mul_comm]
  have h2 : ((size + partSize - 1) / partSize) * partSize
      = partSize * ((size + partSize - 1) / partSize) := Nat.mul_comm _ _
  have h3 : partSize ≤ partSize * ((size + partSize - 1) / partSize) :=
    Nat.le_mul_of_pos_right _ hq
  rw [h1, h2]
  generalize partSize * ((size + partSize - 1) / partSize) = t at hdm h3
  omega

/-- Sum of `n` sizes `b` followed by a final size `a`. -/
theorem sum_map_ite_last (a b n : Nat) :
    ((List.range' 1 (n + 1)).map (fun p => if p = n + 1 then a else b)).sum
      = n * b + a := by
  rw [List.range'_concat, List.map_append, List.sum_append]
  have h2 : (1 + 1 * n) = n + 1 := by omega
  rw [h2]
  have h1 : (List.range' 1 n).map (fun p => if p = n + 1 then a else b)
      = (List.range' 1 n).map (fun _ => b) := by
    apply List.map_congr_left
    intro p hp
    have hlt := (List.mem_range'_1.mp hp).2
    have hne : p ≠ n + 1 := by omega
    simp [hne]
  rw [h1, List.map_const', List.sum_const_nat, List.length_range']
  simp

/-- Fresh multipart planning (no usable checkpoint): the plan carries the
new upload id, descriptors for every part `1..N` with `N = ⌈size/P⌉`,
offsets `(p-1)·P`, sizes `P` except the last part which takes the
remainder, and the emitted sections tile `[0, size)` exactly. -/
theorem produceMultipart_fresh_plan (path uid : String) (partSize size : Nat)
    (lp : Except String (List Nat))
    (hp : 0 < partSize) (hs : 0 < size) (hcap : size ≤ maxSinglePutObjectSize) :
    ∃ plan, produceMultipartUploadInfos path partSize size none lp (.ok uid) = .ok plan
      ∧ plan.uploadId = uid ∧ plan.uploadedPreset = 0
      ∧ plan.infos = (List.range' 1 ((size + partSize - 1) / partSize)).map
          (fun p => ⟨path, uid, p, (size + partSize - 1) / partSize, (p - 1) * partSize,
            if p = (size + partSize - 1) / partSize
            then size - ((size + partSize - 1) / partSize - 1) * partSize
            else partSize⟩)
      ∧ ((size + partSize - 1) / partSize - 1) * partSize < size
      ∧ size ≤ ((size + partSize - 1) / partSize) * partSize
      ∧ (plan.infos.map (fun i => i.readSize)).sum = size := by
  have hnotbig : ¬ maxSinglePutObjectSize < size := Nat.not_lt.mpr hcap
  obtain ⟨hlb, hub⟩ := ceil_parts_bounds partSize size hp hs
  have heq : produceMultipartUploadInfos path partSize size none lp (.ok uid)
      = .ok { infos := (List.range' 1 ((size + partSize - 1) / partSize)).map
                (fun p => ⟨path, uid, p, (size + partSize - 1) / partSize,
                  (p - 1) * partSize,
                  if p = (size + partSize - 1) / partSize
                  then size - ((size + partSize - 1) / partSize - 1) * partSize
                  else partSize⟩),
              uploadedPreset := 0, uploadId := uid, didReset := false } := by
    simp [produceMultipartUploadInfos, hnotbig, emptyCheckpoint, optimalPartInfo,
      filterMap_some_eq_map]
  refine ⟨_, heq, rfl, rfl, rfl, hlb, hub, ?_⟩
  obtain ⟨m, hm⟩ : ∃ m, (size + partSize - 1) / partSize = m + 1 := by
    have hq : 0 < (size + partSize - 1) / partSize := by
      apply Nat.div_pos _ hp
      omega
    exact ⟨_, (Nat.succ_pred_eq_of_pos hq).symm⟩
  simp only [List.map_map]
  have hcomp : ((fun i : UploadInfo => i.readSize) ∘
      (fun p => (⟨path, uid, p, (size + partSize - 1) / partSize, (p - 1) * partSize,
        if p = (size + partSize - 1) / partSize
        then size - ((size + partSize - 1) / partSize - 1) * partSize
        else partSize⟩ : UploadInfo)))
      = fun p => if p = (size + partSize - 1) / partSize
          then size - ((size + partSize - 1) / partSize - 1) * partSize
          else partSize := rfl
  rw [hcomp, hm]
  rw [sum_map_ite_last]
  rw [hm] at hlb
  simp only [Nat.add_sub_cancel] at hlb ⊢
  omega

/-- C8: the 500 GiB cap is checked at the top of multipart planning: a
file of exactly `maxSinglePutObjectSize` bytes passes the check and gets
a plan, while any larger file fails with the too-large error before any
descriptor is produced. -/
theorem maxSinglePutObjectSize_cap (path uid : String) (partSize size : Nat)
    (cp0 : Option MultipartCheckpointInfo) (lp : Except String (List Nat))
    (nu : Except String String) (hbig : maxSinglePutObjectSize < size) :
    (∃ plan, produceMultipartUploadInfos path partSize maxSinglePutObjectSize none
        lp (.ok uid) = .ok plan)
    ∧ produceMultipartUploadInfos path partSize size cp0 lp nu
        = .error "exceeds the maximum allowed object size" := by
  constructor
  · exact ⟨_, by simp only [produceMultipartUploadInfos, Nat.lt_irrefl, if_false,
      Option.getD_none]; rfl⟩
  · simp only [produceMultipartUploadInfos, hbig, if_true]

/-- Witness for `maxSinglePutObjectSize_cap` one byte over the cap. -/
theorem maxSinglePutObjectSize_cap_witness :
    maxSinglePutObjectSize < maxSinglePutObjectSize + 1
    ∧ produceMultipartUploadInfos "f.bin" defaultPartSize (maxSinglePutObjectSize + 1)
        none (.ok []) (.ok "u") = .error "exceeds the maximum allowed object size" :=
  ⟨Nat.lt_succ_self _,
    (maxSinglePutObjectSize_cap "f.bin" "u" defaultPartSize (maxSinglePutObjectSize + 1)
      none (.ok []) (.ok "u") (Nat.lt_succ_self _)).2⟩

/-- C4: the producer's size decision and the multipart split.  A file of
size at most the configured part size gets exactly one single-PUT
descriptor (empty upload id, whole file).  A larger file (fresh, no
checkpoint) gets descriptors for parts `1..N`, `N = ⌈size/P⌉`, part `p`
reading at offset `(p-1)·P` with length `P`, except the last part which
takes the remainder `size - (N-1)·P`; the bounds
`(N-1)·P < size ≤ N·P` and the total read length `size` make the
descriptors tile `[0, size)` exactly.  A file of size `P + 1` yields two
parts of sizes `P` and `1`. -/
theorem produceUploadInfos_partition (path uid url : String) (partSize size : Nat)
    (hp : 0 < partSize) (hcap : size ≤ maxSinglePutObjectSize) :
    (size ≤ partSize →
      produceUploadInfoForFile path partSize size (some url) none (.ok []) (.ok uid)
        = .single ⟨path, "", 0, 0, 0, 0⟩)
    ∧ (partSize < size → ∃ plan,
        produceUploadInfoForFile path partSize size (some url) none (.ok []) (.ok uid)
          = .multi plan
        ∧ plan.infos = (List.range' 1 ((size + partSize - 1) / partSize)).map
            (fun p => ⟨path, uid, p, (size + partSize - 1) / partSize,
              (p - 1) * partSize,
              if p = (size + partSize - 1) / partSize
              then size - ((size + partSize - 1) / partSize - 1) * partSize
              else partSize⟩)
        ∧ ((size + partSize - 1) / partSize - 1) * partSize < size
        ∧ size ≤ ((size + partSize - 1) / partSize) * partSize
        ∧ (plan.infos.map (fun i => i.readSize)).sum = size)
    ∧ (partSize + 1 ≤ maxSinglePutObjectSize → ∃ plan,
        produceUploadInfoForFile path partSize (partSize + 1) (some url) none
            (.ok []) (.ok uid) = .multi plan
        ∧ plan.infos.map (fun i => i.readSize) = [partSize, 1]
        ∧ plan.infos.map (fun i => i.partId) = [1, 2]) := by
  refine ⟨?_, ?_, ?_⟩
  · intro h
    simp [produceUploadInfoForFile, h]
  · intro hlt
    obtain ⟨plan, heq, hid, hup, hinfos, hlb, hub, hsum⟩ :=
      produceMultipart_fresh_plan path uid partSize size (.ok []) hp (by omega) hcap
    refine ⟨plan, ?_, hinfos, hlb, hub, hsum⟩
    simp [produceUploadInfoForFile, Nat.not_le.mpr hlt, heq]
  · intro hcap2
    obtain ⟨plan, heq, hid, hup, hinfos, hlb, hub, hsum⟩ :=
      produceMultipart_fresh_plan path uid partSize (partSize + 1) (.ok [])
        hp (by omega) hcap2
    have hN : (partSize + 1 + partSize - 1) / partSize = 2 := by
      have h2p : partSize + 1 + partSize - 1 = 2 * partSize := by omega
      rw [h2p, Nat.mul_div_cancel _ hp]
    rw [hN] at hinfos
    have hr2 : List.range' 1 2 = [1, 2] := rfl
    refine ⟨plan, ?_, ?_, ?_⟩
    · have hns : ¬ partSize + 1 ≤ partSize := by omega
      simp [produceUploadInfoForFile, hns, heq]
    · rw [hinfos, hr2]
      simp
    · rw [hinfos, hr2]
      simp

/-- Witness for `produceUploadInfos_partition`: a one-byte file with a
one-byte part size takes the single-PUT branch. -/
theorem produceUploadInfos_partition_witness :
    (0 : Nat) < 1 ∧ (1 : Nat) ≤ maxSinglePutObjectSize ∧ (1 : Nat) ≤ 1
    ∧ produceUploadInfoForFile "f.bin" 1 1 (some "u") none (.ok []) (.ok "uid")
        = .single ⟨"f.bin", "", 0, 0, 0, 0⟩ :=
  ⟨by decide, by decide, by decide,
    (produceUploadInfos_partition "f.bin" "uid" "u" 1 1 (by decide) (by decide)).1
      (by decide)⟩

/-- C3: multipart planning against an existing checkpoint with a
non-empty upload id.  When `ListObjectParts` errors or returns no parts,
the checkpoint is reset, the new upload id is used, the uploaded counter
starts at 0 and descriptors for all parts `1..N` are emitted.  When it
returns a non-empty part list, the checkpoint survives: its upload id is
reused, the uploaded byte counter is pre-set to the checkpoint's
accumulated size, and descriptors are emitted exactly for the part
numbers absent from the checkpoint's completed-parts list. -/
theorem produceMultipartUploadInfos_resume (path uid : String) (partSize size : Nat)
    (cp : MultipartCheckpointInfo) (nu : Except String String)
    (hcap : size ≤ maxSinglePutObjectSize) (hid : cp.uploadId ≠ "") :
    (∀ msg, ∃ plan, produceMultipartUploadInfos path partSize size (some cp)
        (.error msg) (.ok uid) = .ok plan
      ∧ plan.didReset = true ∧ plan.uploadId = uid ∧ plan.uploadedPreset = 0
      ∧ plan.infos.map (fun i => i.partId)
          = List.range' 1 ((size + partSize - 1) / partSize))
    ∧ (∃ plan, produceMultipartUploadInfos path partSize size (some cp)
        (.ok []) (.ok uid) = .ok plan
      ∧ plan.didReset = true ∧ plan.uploadId = uid ∧ plan.uploadedPreset = 0
      ∧ plan.infos.map (fun i => i.partId)
          = List.range' 1 ((size + partSize - 1) / partSize))
    ∧ (∀ l : List Nat, l ≠ [] → ∃ plan,
        produceMultipartUploadInfos path partSize size (some cp) (.ok l) nu = .ok plan
      ∧ plan.didReset = false ∧ plan.uploadId = cp.uploadId
      ∧ plan.uploadedPreset = cp.uploadedSize
      ∧ plan.infos.map (fun i => i.partId)
          = (List.range' 1 ((size + partSize - 1) / partSize)).filter
              (fun p => !((cp.parts.map (fun q => q.partNumber)).contains p))) := by
  have hnotbig : ¬ maxSinglePutObjectSize < size := Nat.not_lt.mpr hcap
  have hmapid : ∀ (u : String) (l : List Nat),
      ((l.map (fun p => (⟨path, u, p, (size + partSize - 1) / partSize,
          (p - 1) * partSize,
          if p = (size + partSize - 1) / partSize
          then size - ((size + partSize - 1) / partSize - 1) * partSize
          else partSize⟩ : UploadInfo))).map (fun i => i.partId)) = l := by
    intro u l
    rw [List.map_map]
    exact List.map_id' l
  refine ⟨?_, ?_, ?_⟩
  · intro msg
    have heq : produceMultipartUploadInfos path partSize size (some cp)
        (.error msg) (.ok uid)
        = .ok { infos := (List.range' 1 ((size + partSize - 1) / partSize)).map
                  (fun p => ⟨path, uid, p, (size + partSize - 1) / partSize,
                    (p - 1) * partSize,
                    if p = (size + partSize - 1) / partSize
                    then size - ((size + partSize - 1) / partSize - 1) * partSize
                    else partSize⟩),
                uploadedPreset := 0, uploadId := uid, didReset := true } := by
      simp [produceMultipartUploadInfos, hnotbig, hid, emptyCheckpoint,
        optimalPartInfo, filterMap_some_eq_map]
    exact ⟨_, heq, rfl, rfl, rfl, hmapid uid _⟩
  · have heq : produceMultipartUploadInfos path partSize size (some cp)
        (.ok []) (.ok uid)
        = .ok { infos := (List.range' 1 ((size + partSize - 1) / partSize)).map
                  (fun p => ⟨path, uid, p, (size + partSize - 1) / partSize,
                    (p - 1) * partSize,
                    if p = (size + partSize - 1) / partSize
                    then size - ((size + partSize - 1) / partSize - 1) * partSize
                    else partSize⟩),
                uploadedPreset := 0, uploadId := uid, didReset := true } := by
      simp [produceMultipartUploadInfos, hnotbig, hid, emptyCheckpoint,
        optimalPartInfo, filterMap_some_eq_map]
    exact ⟨_, heq, rfl, rfl, rfl, hmapid uid _⟩
  · intro l hl
    have heq : produceMultipartUploadInfos path partSize size (some cp)
        (.ok l) nu
        = .ok { infos := ((List.range' 1 ((size + partSize - 1) / partSize)).filter
                  (fun p => !((cp.parts.map (fun q => q.partNumber)).contains p))).map
                  (fun p => ⟨path, cp.uploadId, p, (size + partSize - 1) / partSize,
                    (p - 1) * partSize,
                    if p = (size + partSize - 1) / partSize
                    then size - ((size + partSize - 1) / partSize - 1) * partSize
                    else partSize⟩),
                uploadedPreset := cp.uploadedSize, uploadId := cp.uploadId,
                didReset := false } := by
      rw [← filterMap_if_eq_map_filter]
      simp [produceMultipartUploadInfos, hnotbig, hid, optimalPartInfo,
        List.length_eq_zero, hl]
    exact ⟨_, heq, rfl, rfl, rfl, hmapid cp.uploadId _⟩

/-- Witness for `produceMultipartUploadInfos_resume`: a two-part file
resuming from a checkpoint that has completed part 1; `ListObjectParts`
returns a non-empty list, so only part 2 is planned and the uploaded
counter starts at the checkpoint's 3 bytes. -/
theorem produceMultipartUploadInfos_resume_witness :
    (2 : Nat) ≤ maxSinglePutObjectSize
    ∧ (MultipartCheckpointInfo.uploadId ⟨"u0", 3, [⟨1, "e"⟩]⟩ ≠ "")
    ∧ (∃ plan, produceMultipartUploadInfos "f.bin" 1 2 (some ⟨"u0", 3, [⟨1, "e"⟩]⟩)
        (.ok [1]) (.ok "u1") = .ok plan
      ∧ plan.didReset = false
      ∧ plan.uploadId = MultipartCheckpointInfo.uploadId ⟨"u0", 3, [⟨1, "e"⟩]⟩
      ∧ plan.uploadedPreset
          = MultipartCheckpointInfo.uploadedSize ⟨"u0", 3, [⟨1, "e"⟩]⟩
      ∧ plan.infos.map (fun i => i.partId)
          = (List.range' 1 ((2 + 1 - 1) / 1)).filter
              (fun p => !(((MultipartCheckpointInfo.parts ⟨"u0", 3, [⟨1, "e"⟩]⟩).map
                  (fun q => q.partNumber)).contains p))) :=
  ⟨by decide, by decide,
    (produceMultipartUploadInfos_resume "f.bin" "u1" 1 2 ⟨"u0", 3, [⟨1, "e"⟩]⟩
      (.ok "u1") (by decide) (by decide)).2.2 [1] (by decide)⟩

/-- C7 failing input: twenty-one files, and `GenerateFileUploadUrls`
fails exactly on the first full batch of twenty.  Because the error path
skips `files = nil`, the failed batch stays in the buffer: the equality
test `len(files) == 20` never fires again, and the final flush issues a
second call carrying all twenty-one files — including `f0`, a member of
the failed batch, which the claim says must appear in no later call; the
second call also exceeds the twenty-file batch bound. -/
theorem runUrlBatcher_keeps_failed_batch :
    (runUrlBatcher genFail20 names21).calls.length = 2
    ∧ ((runUrlBatcher genFail20 names21).calls.getD 0 []).length = 20
    ∧ ((runUrlBatcher genFail20 names21).calls.getD 1 []).length = 21
    ∧ "f0" ∈ (runUrlBatcher genFail20 names21).calls.getD 1 []
    ∧ "f0" ∈ (runUrlBatcher genFail20 names21).failed := by
  decide

/-- A left fold by `Nat.min` never exceeds its initial accumulator. -/
theorem foldl_min_le_init (l : List Nat) (a : Nat) : l.foldl min a ≤ a := by
  induction l generalizing a with
  | nil => exact Nat.le_refl a
  | cons x xs ih => exact Nat.le_trans (ih (min a x)) (Nat.min_le_left a x)

/-- A left fold by `Nat.min` never exceeds any list element. -/
theorem foldl_min_le_mem (l : List Nat) (a z : Nat) (hz : z ∈ l) :
    l.foldl min a ≤ z := by
  induction l generalizing a with
  | nil => cases hz
  | cons x xs ih =>
    rcases List.mem_cons.mp hz with rfl | hz'
    · exact Nat.le_trans (foldl_min_le_init xs (min a z)) (Nat.min_le_right a z)
    · exact ih (min a x) hz'

/-- A left fold by `Nat.min` lands on the accumulator or a list element. -/
theorem foldl_min_mem (xs : List Nat) (x : Nat) : xs.foldl min x ∈ x :: xs := by
  induction xs generalizing x with
  | nil => exact List.mem_singleton.mpr rfl
  | cons y ys ih =>
    show List.foldl min (min x y) ys ∈ x :: y :: ys
    have h := ih (min x y)
    rcases List.mem_cons.mp h with he | hm
    · rw [he]
      by_cases hxy : x ≤ y
      · have hmx : min x y = x := by omega
        rw [hmx]
        exact List.mem_cons_self _ _
      · have hmy : min x y = y := by omega
        rw [hmy]
        exact List.mem_cons_of_mem _ (List.mem_cons_self _ _)
    · exact List.mem_cons_of_mem _ (List.mem_cons_of_mem _ hm)

/-- `lo.Min` of a non-empty list is one of its elements. -/
theorem loMin_mem (l : List Nat) (h : l ≠ []) : loMin l ∈ l := by
  match l with
  | x :: xs => exact foldl_min_mem xs x

/-- `lo.Min` is a lower bound of the list. -/
theorem loMin_le (l : List Nat) (z : Nat) (hz : z ∈ l) : loMin l ≤ z := by
  match l with
  | x :: xs =>
    rcases List.mem_cons.mp hz with rfl | hz'
    · exact foldl_min_le_init xs z
    · exact foldl_min_le_mem xs x z hz'

/-- `canUpload` admits any candidate that shares its path with no
in-flight descriptor (a free worker slot is the only requirement the
scheduler checks besides this call). -/
theorem canUpload_no_samepath (partSize : Nat) (cand : UploadInfo)
    (inflight : List UploadInfo) (h : ∀ e ∈ inflight, e.path ≠ cand.path) :
    canUpload partSize cand inflight = true := by
  have hfil : inflight.filter (fun i => i.path == cand.path) = [] := by
    rw [List.filter_eq_nil_iff]
    intro a ha
    simp [h a ha]
  simp [canUpload, hfil, loMin]

/-- `canUpload` admits any single-PUT descriptor (part id 0). -/
theorem canUpload_zero_partId (partSize : Nat) (cand : UploadInfo)
    (inflight : List UploadInfo) (h : cand.partId = 0) :
    canUpload partSize cand inflight = true := by
  simp only [canUpload]
  split
  · rfl
  · simp [h]

/-- The bound extracted from a successful `canUpload` check when some
same-path descriptor is in flight (least part id non-zero). -/
theorem canUpload_bound (partSize : Nat) (cand : UploadInfo)
    (inflight : List UploadInfo)
    (hc : canUpload partSize cand inflight = true)
    (hne : loMin ((inflight.filter (fun i => i.path == cand.path)).map
        (fun i => i.partId)) ≠ 0) :
    cand.partId ≤ loMin ((inflight.filter (fun i => i.path == cand.path)).map
        (fun i => i.partId)) + partThreshold partSize := by
  simp only [canUpload] at hc
  rw [if_neg hne] at hc
  exact of_decide_eq_true hc

/-- Every scheduler transition preserves well-formedness, in particular
the sliding-window invariant. -/
theorem schedStep_preserves_WF (partSize : Nat) {s t : SchedState}
    (hstep : SchedStep partSize s t) (hwf : SchedWF partSize s) :
    SchedWF partSize t := by
  obtain ⟨h1, h2, h3, h4⟩ := hwf
  cases hstep with
  | dispatch d rest inflight hc =>
    refine ⟨?_, (List.pairwise_cons.mp h2).2, ?_, ?_⟩
    · intro p hp e he hpe
      rcases List.mem_append.mp he with he' | he'
      · exact h1 p (List.mem_cons_of_mem _ hp) e he' hpe
      · have hed : e = d := List.mem_singleton.mp he'
        subst hed
        exact (List.pairwise_cons.mp h2).1 p hp hpe.symm
    · have hsub : ∀ z : UploadInfo,
          z ∈ rest ++ (inflight ++ [d]) → z ∈ (d :: rest) ++ inflight := by
        intro z hz
        simp only [List.mem_append, List.mem_cons, List.mem_singleton] at hz ⊢
        tauto
      intro x hx y hy hxy hx0
      exact h3 x (hsub x hx) y (hsub y hy) hxy hx0
    · intro x hx y hy hxy
      rcases List.mem_append.mp hx with hxI | hxD
      · rcases List.mem_append.mp hy with hyI | hyD
        · exact h4 x hxI y hyI hxy
        · have hyd : y = d := List.mem_singleton.mp hyD
          subst hyd
          have hlt := h1 y (List.mem_cons_self _ _) x hxI hxy.symm
          exact Nat.le_trans (Nat.le_of_lt hlt) (Nat.le_add_right _ _)
      · have hxd : x = d := List.mem_singleton.mp hxD
        subst hxd
        rcases List.mem_append.mp hy with hyI | hyD
        · have hyfl : y ∈ inflight.filter (fun i => i.path == x.path) :=
            List.mem_filter.mpr ⟨hyI, by simp [hxy.symm]⟩
          have hmap : y.partId ∈ (inflight.filter (fun i => i.path == x.path)).map
              (fun i => i.partId) := List.mem_map_of_mem _ hyfl
          by_cases hz : loMin ((inflight.filter (fun i => i.path == x.path)).map
              (fun i => i.partId)) = 0
          · have hnil : (inflight.filter (fun i => i.path == x.path)).map
                (fun i => i.partId) ≠ [] := by
              intro hcon
              rw [hcon] at hmap
              cases hmap
            have hmem0 := loMin_mem _ hnil
            rw [hz] at hmem0
            obtain ⟨e0, he0fl, he00⟩ := List.mem_map.mp hmem0
            have he0I : e0 ∈ inflight := (List.mem_filter.mp he0fl).1
            have he0p : e0.path = x.path :=
              by simpa using (List.mem_filter.mp he0fl).2
            have hx0 : x.partId = 0 :=
              h3 e0 (List.mem_append.mpr (Or.inr he0I))
                x (List.mem_append.mpr (Or.inl (List.mem_cons_self _ _)))
                he0p he00
            rw [hx0]
            exact Nat.zero_le _
          · have hb := canUpload_bound partSize x inflight hc hz
            have hle := loMin_le _ _ hmap
            exact Nat.le_trans hb (Nat.add_le_add_right hle _)
        · have hyd : y = x := List.mem_singleton.mp hyD
          rw [hyd]
          exact Nat.le_add_right _ _
  | discard d rest inflight =>
    refine ⟨?_, (List.pairwise_cons.mp h2).2, ?_, h4⟩
    · intro p hp e he hpe
      exact h1 p (List.mem_cons_of_mem _ hp) e he hpe
    · intro x hx y hy hxy hx0
      have hsub : ∀ z : UploadInfo,
          z ∈ rest ++ inflight → z ∈ (d :: rest) ++ inflight := by
        intro z hz
        simp only [List.mem_append, List.mem_cons] at hz ⊢
        tauto
      exact h3 x (hsub x hx) y (hsub y hy) hxy hx0
  | complete r pending inflight =>
    refine ⟨?_, h2, ?_, ?_⟩
    · intro p hp e he hpe
      exact h1 p hp e (List.mem_of_mem_filter he) hpe
    · intro x hx y hy hxy hx0
      have hsub : ∀ z : UploadInfo,
          z ∈ pending ++ inflight.filter
              (fun i => i.path != r.path || i.partId != r.partId)
            → z ∈ pending ++ inflight := by
        intro z hz
        rcases List.mem_append.mp hz with hz' | hz'
        · exact List.mem_append.mpr (Or.inl hz')
        · exact List.mem_append.mpr (Or.inr (List.mem_of_mem_filter hz'))
      exact h3 x (hsub x hx) y (hsub y hy) hxy hx0
    · intro x hx y hy hxy
      exact h4 x (List.mem_of_mem_filter hx) y (List.mem_of_mem_filter hy) hxy

/-- Well-formedness is preserved along every run of the scheduler. -/
theorem reachable_SchedWF (partSize : Nat) {s₀ s : SchedState}
    (hreach : Relation.ReflTransGen (SchedStep partSize) s₀ s)
    (hwf : SchedWF partSize s₀) : SchedWF partSize s := by
  induction hreach with
  | refl => exact hwf
  | tail _ hstep ih => exact schedStep_preserves_WF partSize hstep ih

/-- C2: in every state the scheduler can reach from a well-formed start
(producer order: ascending part ids per file, nothing in flight beyond
the window), every in-flight descriptor's part id is at most the least
in-flight part id of its file plus `windowSize / partSize` where the
window is `max(1 GiB, partSize)`; and `canUpload` always admits a
single-PUT descriptor (part id 0) and any descriptor of a file with no
other part in flight. -/
theorem canUpload_sliding_window (partSize : Nat) (s₀ s : SchedState)
    (hwf : SchedWF partSize s₀)
    (hreach : Relation.ReflTransGen (SchedStep partSize) s₀ s) :
    (∀ d ∈ s.inflight,
      d.partId ≤ loMin ((s.inflight.filter (fun i => i.path == d.path)).map
          (fun i => i.partId)) + partThreshold partSize)
    ∧ (∀ (cand : UploadInfo) (inflight : List UploadInfo),
        (∀ e ∈ inflight, e.path ≠ cand.path) →
          canUpload partSize cand inflight = true)
    ∧ (∀ (cand : UploadInfo) (inflight : List UploadInfo), cand.partId = 0 →
        canUpload partSize cand inflight = true) := by
  obtain ⟨-, -, -, h4⟩ := reachable_SchedWF partSize hreach hwf
  refine ⟨?_, canUpload_no_samepath partSize, canUpload_zero_partId partSize⟩
  intro d hd
  have hdfl : d ∈ s.inflight.filter (fun i => i.path == d.path) :=
    List.mem_filter.mpr ⟨hd, by simp⟩
  have hnil : (s.inflight.filter (fun i => i.path == d.path)).map
      (fun i => i.partId) ≠ [] := by
    intro hcon
    have hmem := List.mem_map_of_mem (fun i => i.partId) hdfl
    rw [hcon] at hmem
    cases hmem
  obtain ⟨e, hefl, hepid⟩ := List.mem_map.mp (loMin_mem _ hnil)
  have heI : e ∈ s.inflight := (List.mem_filter.mp hefl).1
  have hep : e.path = d.path := by simpa using (List.mem_filter.mp hefl).2
  have hw := h4 d hd e heI hep.symm
  rw [← hepid]
  exact hw

/-- Witness for `canUpload_sliding_window` at the empty initial state. -/
theorem canUpload_sliding_window_witness :
    SchedWF defaultPartSize ⟨[], []⟩
    ∧ ((∀ d ∈ (⟨[], []⟩ : SchedState).inflight,
        d.partId ≤ loMin (((⟨[], []⟩ : SchedState).inflight.filter
            (fun i => i.path == d.path)).map (fun i => i.partId))
          + partThreshold defaultPartSize)
      ∧ (∀ (cand : UploadInfo) (inflight : List UploadInfo),
          (∀ e ∈ inflight, e.path ≠ cand.path) →
            canUpload defaultPartSize cand inflight = true)
      ∧ (∀ (cand : UploadInfo) (inflight : List UploadInfo), cand.partId = 0 →
          canUpload defaultPartSize cand inflight = true)) := by
  have hwf : SchedWF defaultPartSize ⟨[], []⟩ := by
    refine ⟨?_, ?_, ?_, ?_⟩ <;> simp [WindowInv]
  exact ⟨hwf, canUpload_sliding_window defaultPartSize ⟨[], []⟩ ⟨[], []⟩ hwf
    Relation.ReflTransGen.refl⟩

end Cocli
